import Mathlib

/-!
Verification of the realtime effect state machinery of
src/effects/RealtimeEffectState.cpp: the channel allocator, the
latency and sample accounting of Process, the lifecycle transitions
(ProcessStart, AddTrack, Finalize) and the settings exchange between the
control thread and the worker thread (Access.Set, WorkerRead).

Modelling conventions:
- machine integers (unsigned, size_t) are modelled as Nat, with Nat
  truncated subtraction where the source guarantees non-negativity;
- plugin calls (RealtimeAddProcessor, RealtimeProcess, GetLatency,
  RealtimeResume, RealtimeSuspend, RealtimeFinalize) are external
  collaborators and are modelled as function or Boolean parameters;
- the C loop of AllocateChannelsToProcessors has no a-priori bound when
  the output arity is 0, so the embedding takes an explicit fuel
  parameter; fuel = chans is enough whenever the output arity is at
  least 1 (proved below), and the fuel-indexed family also lets us state
  the divergence at output arity 0.
-/

namespace RealtimeEffectState

/-- Embedding of the file-local template AllocateChannelsToProcessors:
iterate the output offset from 0 by numAudioOut while it is below chans,
invoke the callback f with the current input and output offsets, stop as
soon as f returns false, and advance the input offset by numAudioIn
reduced modulo chans.  The callback is state-passing (type sigma), as the
C++ lambdas capture and mutate local state.  The second component of the
result is instrumentation: the list of invocations made, each with the
offsets passed and the Boolean the callback returned. -/
def AllocateChannelsToProcessors {σ : Type} (chans numAudioIn numAudioOut : Nat)
    (f : σ → Nat → Nat → σ × Bool) :
    Nat → Nat → Nat → σ → σ × List ((Nat × Nat) × Bool)
  | 0, _, _, s => (s, [])
  | fuel+1, indx, ondx, s =>
    if ondx < chans then
      match f s indx ondx with
      | (s', true) =>
        let q := AllocateChannelsToProcessors chans numAudioIn numAudioOut f fuel
          ((indx + numAudioIn) % chans) (ondx + numAudioOut) s'
        (q.1, ((indx, ondx), true) :: q.2)
      | (s', false) => (s', [((indx, ondx), false)])
    else (s, [])

/-- The invocation trace of an allocator run: the second component of
AllocateChannelsToProcessors. -/
def allocInvocations {σ : Type} (chans numAudioIn numAudioOut : Nat)
    (f : σ → Nat → Nat → σ × Bool) (fuel i o : Nat) (s : σ) :
    List ((Nat × Nat) × Bool) :=
  (AllocateChannelsToProcessors chans numAudioIn numAudioOut f fuel i o s).2

/-- The allocator run with a stateless callback, recording its trace.
Used to state the termination and counting properties. -/
def allocTrace (chans numAudioIn numAudioOut : Nat) (g : Nat → Nat → Bool)
    (fuel : Nat) : List ((Nat × Nat) × Bool) :=
  allocInvocations chans numAudioIn numAudioOut
    (fun (_ : Unit) i o => ((), g i o)) fuel 0 0 ()

/-- The allocator traversal made by RealtimeEffectState.AddTrack: the
callback attempts RealtimeAddProcessor (modelled by the oracle addOk,
indexed by the running processor counter), increments mCurrentProcessor
on success and returns false on failure.  The state is the running value
of mCurrentProcessor, started at its value on entry. -/
def addTrackTraversal (addOk : Nat → Bool) (chans numAudioIn numAudioOut fuel first : Nat) :
    Nat × List ((Nat × Nat) × Bool) :=
  AllocateChannelsToProcessors chans numAudioIn numAudioOut
    (fun cp _ _ => if addOk cp then (cp + 1, true) else (cp, false))
    fuel 0 0 first

/-- The allocator traversal made by RealtimeEffectState.Process: its
callback increments the local processor counter and always returns true
(the buffer work it performs does not influence the traversal). -/
def processTraversal (chans numAudioIn numAudioOut fuel first : Nat) :
    Nat × List ((Nat × Nat) × Bool) :=
  AllocateChannelsToProcessors chans numAudioIn numAudioOut
    (fun processor _ _ => (processor + 1, true))
    fuel 0 0 first

/-- Modelled from the spec: limitSampleBufferSize lives in
lib-math/SampleCount.h, which is not among the provided sources.  Per the
spec, the discard is the amount of the accumulated output covered by the
outstanding latency budget, that is the minimum of the two. -/
def limitSampleBufferSize (bufferSize limit : Nat) : Nat :=
  min bufferSize limit

/-- The inner block loop of RealtimeEffectState.Process for the first
allocator iteration (output offset 0), which is the only one that touches
the len accumulator and the latency budget.  Arguments: b is the instance
block size (GetBlockSize), L the latency the plugin reports via
GetLatency, produce models how many frames RealtimeProcess returns for a
requested chunk.  State: remaining frames of this call, the len
accumulator (0 on entry of each call), and mLatency (none until captured
after the first processed chunk).  When b = 0 the C loop would not
advance; the embedding returns in that case (all stated theorems assume
0 < b). -/
def chunkLoop (b L : Nat) (produce : Nat → Nat) (remaining len : Nat)
    (lat : Option Nat) : Nat × Option Nat :=
  if remaining = 0 ∨ b = 0 then (len, lat)
  else
    let cnt := min remaining b
    let processed := produce cnt
    let lat0 := lat.getD L
    let len1 := len + processed
    let discard := limitSampleBufferSize len1 lat0
    chunkLoop b L produce (remaining - cnt) (len1 - discard) (some (lat0 - discard))
termination_by remaining
decreasing_by simp_wf; omega

/-- The fields of RealtimeEffectState that RealtimeEffectState.Process
consults: mPlugin and the locked mwInstance are collapsed to Booleans,
mLastActive and mLatency are as in the source. -/
structure ProcessState where
  hasPlugin : Bool
  hasInstance : Bool
  lastActive : Bool
  latency : Option Nat

/-- Embedding of RealtimeEffectState.Process.  If there is no plugin, no
live instance, or the recorded activity flag is false, every output
channel is overwritten with the corresponding input channel over
numSamples samples (memcpy) and 0 is returned.  Otherwise the allocator
traversal runs; only its first iteration (output offset 0, present
whenever 0 < chans) updates the len accumulator and the latency budget,
which chunkLoop models; the buffer contents written by the plugin in the
active branch are external (argument activeOut).  Buffers are total maps
channel index to sample index to sample, so samples beyond numSamples
keep their previous contents.  The returned count is numSamples - len,
the number of trailing samples not yet validly produced. -/
def Process {α : Type} (st : ProcessState) (chans : Nat)
    (inbuf outbuf : Nat → Nat → α) (numSamples b L : Nat)
    (produce : Nat → Nat) (activeOut : Nat → Nat → α) :
    (Nat → Nat → α) × Nat × ProcessState :=
  if st.hasPlugin = false ∨ st.hasInstance = false ∨ st.lastActive = false then
    (fun ii j => if ii < chans ∧ j < numSamples then inbuf ii j else outbuf ii j,
     0, st)
  else
    let r := if chans = 0 then (0, st.latency)
             else chunkLoop b L produce numSamples 0 st.latency
    (activeOut, numSamples - r.1, { st with latency := r.2 })

/-- Iterate Process over a sequence of calls (one per block) on the same
track, threading the state; collects the discardable counts returned.
The buffers are irrelevant to the accounting and are instantiated at
Unit. -/
def processCalls (chans b L : Nat) (produce : Nat → Nat) :
    ProcessState → List Nat → List Nat × ProcessState
  | st, [] => ([], st)
  | st, n :: ns =>
    let r := Process st chans (fun _ _ => ()) (fun _ _ => ()) n b L produce
      (fun _ _ => ())
    let rest := processCalls chans b L produce r.2.2 ns
    (r.2.1 :: rest.1, rest.2)

/-- Closed form of the latency state after one Process call of n frames
under the assumption that the plugin produces exactly the requested
frames: none stays none on an empty call, is captured and drained to
L - n otherwise; a captured budget A drains to A - n. -/
def latAfter (L : Nat) (lat : Option Nat) (n : Nat) : Option Nat :=
  match lat, n with
  | some A, _ => some (A - n)
  | none, 0 => none
  | none, _ + 1 => some (L - n)

/-- The per-track bookkeeping AddTrack maintains: the running processor
index mCurrentProcessor and the map mGroups from tracks to
{firstProcessorIndex, sampleRate}. -/
structure ATState (T R : Type) where
  currentProcessor : Nat
  groups : T → Option (Nat × R)

/-- Embedding of RealtimeEffectState.AddTrack after EnsureInstance
succeeded: run the allocator traversal with the RealtimeAddProcessor
callback (oracle addOk); if the processor counter advanced past its entry
value, record {first, sampleRate} for the track and report success, else
report failure. -/
def AddTrack {T R : Type} [DecidableEq T] (addOk : Nat → Bool)
    (chans numAudioIn numAudioOut fuel : Nat) (st : ATState T R)
    (track : T) (sampleRate : R) : Bool × ATState T R :=
  let first := st.currentProcessor
  let cp := (addTrackTraversal addOk chans numAudioIn numAudioOut fuel first).1
  if first < cp then
    (true, ⟨cp, fun t => if t = track then some (first, sampleRate) else st.groups t⟩)
  else
    (false, ⟨cp, st.groups⟩)

/-- The fields of RealtimeEffectState that ProcessStart consults:
workerActive is the value of IsActive() after the initial WorkerRead
(the active flag of the worker settings), lastActive is mLastActive, and
the locked mwInstance is a Boolean. -/
structure PSState where
  hasInstance : Bool
  workerActive : Bool
  lastActive : Bool

/-- Embedding of RealtimeEffectState.ProcessStart.  Computes
active = IsActive() AND running; on a change of activity, invokes the
suspend or resume hook when an instance exists (resumeOk and suspendOk
are the hook outcomes), returning false on hook failure without updating
mLastActive; otherwise records the new activity.  Then returns false
without an instance or when inactive, else the outcome of
RealtimeProcessStart (processStartOk).  Result: (return value, new state,
whether a suspend or resume hook was invoked). -/
def ProcessStart (running : Bool) (st : PSState)
    (resumeOk suspendOk processStartOk : Bool) : Bool × PSState × Bool :=
  let active := st.workerActive && running
  if active = st.lastActive then
    if st.hasInstance && active then (processStartOk, st, false)
    else (false, st, false)
  else
    if st.hasInstance then
      if (if active then resumeOk else suspendOk) then
        let st' := { st with lastActive := active }
        if active then (processStartOk, st', true) else (false, st', true)
      else (false, st, true)
    else
      ({ st with lastActive := active } |> fun st' => (false, st', false))

/-- The fields of RealtimeEffectState that Finalize touches.  The
settings objects are opaque values of type alpha. -/
structure FinState (α T R : Type) where
  mainSettings : α
  workerSettings : α
  groups : T → Option (Nat × R)
  currentProcessor : Nat
  latency : Option Nat
  initialized : Bool
  hasInstance : Bool

/-- Embedding of RealtimeEffectState.Finalize: main settings are
overwritten with the worker settings, the group map is cleared and the
processor index reset; without a live instance it returns false there;
otherwise the realtime-finalize hook runs (outcome finalizeOk), the
latency and the initialized flag are cleared, and the hook outcome is
returned. -/
def Finalize {α T R : Type} (finalizeOk : Bool) (st : FinState α T R) :
    Bool × FinState α T R :=
  let st1 := { st with mainSettings := st.workerSettings,
                       groups := fun _ => none,
                       currentProcessor := 0 }
  if st.hasInstance then
    (finalizeOk, { st1 with latency := none, initialized := false })
  else
    (false, st1)

/-- EffectSettings as Access.Set sees it: an optional effect-specific
content (has_value is the test Set performs) plus the extra field with
the active flag. -/
structure EffSettings (α : Type) where
  content : Option α
  active : Bool

/-- SettingsAndCounter: settings plus the revision counter. -/
structure SettingsAndCounter (α : Type) where
  settings : EffSettings α
  counter : Nat

/-- The control-side state Access.Set works on: alive models a successful
weak-reference lock together with a present AccessState; lastSettings is
AccessState.mLastSettings; mainWrites records the values pushed into the
control-to-worker channel by MainWrite. -/
structure AccessModel (α : Type) where
  alive : Bool
  lastSettings : SettingsAndCounter α
  mainWrites : List (SettingsAndCounter α)

/-- Embedding of RealtimeEffectState.Access.Set: an empty-valued settings
object is ignored; with a dead weak reference nothing happens; otherwise
the new settings are moved into the last-known copy, the counter is
incremented, and a copy of the updated pair is pushed via MainWrite. -/
def AccessSet {α : Type} (m : AccessModel α) (s : EffSettings α) :
    AccessModel α :=
  if s.content.isNone then m
  else if m.alive then
    let last := SettingsAndCounter.mk s (m.lastSettings.counter + 1)
    { m with lastSettings := last, mainWrites := m.mainWrites ++ [last] }
  else m

/-- A settings value as the worker holds it: the plugin-specific content
(opaque, type alpha), the extra field (opaque, type E) and the embedded
revision counter. -/
structure WSettings (α E : Type) where
  content : α
  extra : E
  counter : Nat

/-- Embedding of FromMainSlot.Reader: if the counter in the slot equals
the current counter of the worker settings the read returns at once;
otherwise the counter is copied forward, the content is copied by the
plugin-supplied routine copy (CopySettingsContents, slot content first,
destination second) and the extra field is assigned verbatim.  The
Boolean records whether the content-copy branch ran. -/
def fromMainSlotRead {α E : Type} (copy : α → α → α)
    (slot cur : WSettings α E) : WSettings α E × Bool :=
  if slot.counter = cur.counter then (cur, false)
  else (⟨copy slot.content cur.content, slot.extra, slot.counter⟩, true)

/-- Embedding of AccessState.WorkerRead: apply the slot reader to the
current value of the control-to-worker channel.  Modelled from the spec
for the channel itself (MessageBuffer.h is not among the provided
sources): per the spec a Read with no intervening Write returns the
previous value unchanged, so between two writes the slot is a constant
value slotVal. -/
def WorkerRead {α E : Type} (copy : α → α → α) (slotVal worker : WSettings α E) :
    WSettings α E × Bool :=
  fromMainSlotRead copy slotVal worker

/-! Theorems for the settings-exchange claims. -/

/-- C4: for every Access.Set call, an empty-valued settings object makes
Set a no-op (last-known settings, counter and the channel are all
unchanged); with a value and a live weak reference, the settings move
into the last-known copy, the counter increases by exactly 1, and a copy
of the updated pair is written to the control-to-worker channel. -/
theorem C4_access_set {α : Type} (m : AccessModel α) (s : EffSettings α) :
    (s.content.isNone = true → AccessSet m s = m) ∧
    (s.content.isSome = true → m.alive = true →
      (AccessSet m s).lastSettings = ⟨s, m.lastSettings.counter + 1⟩ ∧
      (AccessSet m s).mainWrites =
        m.mainWrites ++ [⟨s, m.lastSettings.counter + 1⟩]) := by
  constructor
  · intro h
    simp [AccessSet, h]
  · intro h ha
    have hn : s.content.isNone = false := by
      cases hc : s.content <;> simp_all
    simp [AccessSet, hn, ha]

/-- Witness for C4 at a concrete non-empty settings value. -/
theorem C4_witness :
    (AccessSet (⟨true, ⟨⟨some 0, true⟩, 5⟩, []⟩ : AccessModel Nat) ⟨some 3, false⟩).lastSettings
      = ⟨⟨some 3, false⟩, 6⟩ ∧
    (AccessSet (⟨true, ⟨⟨some 0, true⟩, 5⟩, []⟩ : AccessModel Nat) ⟨some 3, false⟩).mainWrites
      = [⟨⟨some 3, false⟩, 6⟩] :=
  (C4_access_set ⟨true, ⟨⟨some 0, true⟩, 5⟩, []⟩ ⟨some 3, false⟩).2 rfl rfl

/-- C5: a WorkerRead whose slot counter equals the current worker
counter changes nothing and performs no content copy; with differing
counters it copies the counter forward, copies the content through the
plugin-supplied routine, and assigns the extra field verbatim.  In
addition, a second read of the same slot directly after a read is always
a no-op with no content copy. -/
theorem C5_worker_read {α E : Type} (copy : α → α → α) (slot cur : WSettings α E) :
    (slot.counter = cur.counter → WorkerRead copy slot cur = (cur, false)) ∧
    (slot.counter ≠ cur.counter →
      WorkerRead copy slot cur =
        (⟨copy slot.content cur.content, slot.extra, slot.counter⟩, true)) ∧
    WorkerRead copy slot (WorkerRead copy slot cur).1 =
      ((WorkerRead copy slot cur).1, false) := by
  refine ⟨fun h => by simp [WorkerRead, fromMainSlotRead, h],
          fun h => by simp [WorkerRead, fromMainSlotRead, h], ?_⟩
  by_cases h : slot.counter = cur.counter <;>
    simp [WorkerRead, fromMainSlotRead, h]

/-- Witness for C5 at concrete settings with an unchanged counter. -/
theorem C5_witness :
    WorkerRead (fun a _ => a) (⟨10, 0, 4⟩ : WSettings Nat Nat) ⟨20, 1, 4⟩
      = (⟨20, 1, 4⟩, false) :=
  (C5_worker_read (fun a _ => a) ⟨10, 0, 4⟩ ⟨20, 1, 4⟩).1 rfl

/-! Theorems for the lifecycle claims that need no allocator lemmas. -/

/-- C6: when the state has no bound plugin, no live instance, or a false
recorded activity flag, Process copies every input channel to the
corresponding output channel sample for sample over numSamples samples
and returns a discardable count of 0, for arbitrary channel counts and
block lengths. -/
theorem C6_passthrough {α : Type} (st : ProcessState) (chans : Nat)
    (inbuf outbuf : Nat → Nat → α) (numSamples b L : Nat)
    (produce : Nat → Nat) (activeOut : Nat → Nat → α)
    (h : st.hasPlugin = false ∨ st.hasInstance = false ∨ st.lastActive = false) :
    (∀ ii j, ii < chans → j < numSamples →
      (Process st chans inbuf outbuf numSamples b L produce activeOut).1 ii j
        = inbuf ii j) ∧
    (Process st chans inbuf outbuf numSamples b L produce activeOut).2.1 = 0 := by
  constructor
  · intro ii j hii hj
    simp only [Process, if_pos h]
    simp [hii, hj]
  · simp only [Process, if_pos h]

/-- Witness for C6: a concrete inactive state, two channels, three
samples. -/
theorem C6_witness :
    (Process (⟨true, true, false, none⟩ : ProcessState) 2
      (fun i j => 10 * i + j) (fun _ _ => 99) 3 1 0 (fun c => c)
      (fun _ _ => 0)).1 1 2 = 10 * 1 + 2 ∧
    (Process (⟨true, true, false, none⟩ : ProcessState) 2
      (fun i j => 10 * i + j) (fun _ _ => 99) 3 1 0 (fun c => c)
      (fun _ _ => 0)).2.1 = 0 :=
  ⟨(C6_passthrough ⟨true, true, false, none⟩ 2 (fun i j => 10 * i + j)
      (fun _ _ => 99) 3 1 0 (fun c => c) (fun _ _ => 0)
      (Or.inr (Or.inr rfl))).1 1 2 (by decide) (by decide),
   (C6_passthrough ⟨true, true, false, none⟩ 2 (fun i j => 10 * i + j)
      (fun _ _ => 99) 3 1 0 (fun c => c) (fun _ _ => 0)
      (Or.inr (Or.inr rfl))).2⟩

/-- C7: with a live instance, ProcessStart invokes the suspend or resume
hook exactly when the computed activity (worker active flag AND running)
differs from the recorded activity; when the hook fails the call returns
false and the recorded activity keeps its prior value; when the hook
succeeds the recorded activity becomes the computed value. -/
theorem C7_process_start_transitions :
    ∀ (wa la running rOk sOk pOk : Bool),
      ((ProcessStart running ⟨true, wa, la⟩ rOk sOk pOk).2.2 = true ↔
        (wa && running) ≠ la) ∧
      ((wa && running) ≠ la → (if wa && running then rOk else sOk) = false →
        (ProcessStart running ⟨true, wa, la⟩ rOk sOk pOk).1 = false ∧
        (ProcessStart running ⟨true, wa, la⟩ rOk sOk pOk).2.1.lastActive = la) ∧
      ((wa && running) ≠ la → (if wa && running then rOk else sOk) = true →
        (ProcessStart running ⟨true, wa, la⟩ rOk sOk pOk).2.1.lastActive
          = (wa && running)) := by
  decide

/-- Witness for C7: a resume transition with a succeeding hook. -/
theorem C7_witness :
    (ProcessStart true ⟨true, true, false⟩ true true true).2.2 = true :=
  (C7_process_start_transitions true false true true true true).1.mpr (by decide)

/-- C9: with a live instance, Finalize always overwrites the control
settings with the worker settings, clears the group map, resets the
processor index, clears the latency and the initialized flag, whatever
the outcome of the realtime-finalize hook, and returns exactly that
outcome. -/
theorem C9_finalize {α T R : Type} (ms ws : α) (g : T → Option (Nat × R))
    (cp : Nat) (lat : Option Nat) (init finalizeOk : Bool) :
    Finalize finalizeOk ⟨ms, ws, g, cp, lat, init, true⟩ =
      (finalizeOk, ⟨ws, ws, fun _ => none, 0, none, false, true⟩) := by
  rfl

/-! Allocator lemmas. -/

theorem allocInvocations_zero {σ : Type} (chans nin nout : Nat)
    (f : σ → Nat → Nat → σ × Bool) (i o : Nat) (s : σ) :
    allocInvocations chans nin nout f 0 i o s = [] := rfl

theorem allocInvocations_succ {σ : Type} (chans nin nout : Nat)
    (f : σ → Nat → Nat → σ × Bool) (fuel i o : Nat) (s : σ) :
    allocInvocations chans nin nout f (fuel + 1) i o s =
      if o < chans then
        match f s i o with
        | (s', true) => ((i, o), true) ::
            allocInvocations chans nin nout f fuel ((i + nin) % chans) (o + nout) s'
        | (_, false) => [((i, o), false)]
      else [] := by
  simp only [allocInvocations, AllocateChannelsToProcessors]
  split
  · rcases f s i o with ⟨s', b⟩
    cases b <;> simp
  · rfl

theorem allocInvocations_stop {σ : Type} (chans nin nout : Nat)
    (f : σ → Nat → Nat → σ × Bool) (fuel i o : Nat) (s : σ)
    (h : ¬ o < chans) :
    allocInvocations chans nin nout f fuel i o s = [] := by
  cases fuel with
  | zero => rfl
  | succ fuel => rw [allocInvocations_succ, if_neg h]

/-- Output offsets of the allocator trace: from a start offset o, the
k-th invocation happens at offset o + k * nout, and that offset is below
chans. -/
theorem allocInv_out {σ : Type} (chans nin nout : Nat)
    (f : σ → Nat → Nat → σ × Bool) :
    ∀ (fuel i o : Nat) (s : σ) (k : Nat) (p : (Nat × Nat) × Bool),
      (allocInvocations chans nin nout f fuel i o s)[k]? = some p →
      p.1.2 = o + k * nout ∧ o + k * nout < chans := by
  intro fuel
  induction fuel with
  | zero => intro i o s k p hp; simp [allocInvocations_zero] at hp
  | succ fuel ih =>
    intro i o s k p hp
    rw [allocInvocations_succ] at hp
    by_cases ho : o < chans
    · rw [if_pos ho] at hp
      rcases hf : f s i o with ⟨s', b⟩
      rw [hf] at hp
      cases b
      · cases k with
        | zero => simp at hp; subst hp; simp [ho]
        | succ k => simp at hp
      · cases k with
        | zero => simp at hp; subst hp; simp [ho]
        | succ k =>
          simp only [List.getElem?_cons_succ] at hp
          obtain ⟨h1, h2⟩ := ih ((i + nin) % chans) (o + nout) s' k p hp
          refine ⟨?_, ?_⟩
          · rw [h1, Nat.succ_mul]; omega
          · rw [Nat.succ_mul]; omega
    · rw [if_neg ho] at hp
      simp at hp

/-- The first invocation of the allocator receives the starting input
offset. -/
theorem allocInv_head {σ : Type} (chans nin nout : Nat)
    (f : σ → Nat → Nat → σ × Bool) (fuel i o : Nat) (s : σ)
    (p : (Nat × Nat) × Bool)
    (hp : (allocInvocations chans nin nout f fuel i o s)[0]? = some p) :
    p.1.1 = i := by
  cases fuel with
  | zero => simp [allocInvocations_zero] at hp
  | succ fuel =>
    rw [allocInvocations_succ] at hp
    by_cases ho : o < chans
    · rw [if_pos ho] at hp
      rcases hf : f s i o with ⟨s', b⟩
      rw [hf] at hp
      cases b <;> simp at hp <;> subst hp <;> rfl
    · rw [if_neg ho] at hp
      simp at hp

/-- Input offsets of the allocator trace advance by nin reduced modulo
chans between consecutive invocations. -/
theorem allocInv_in_step {σ : Type} (chans nin nout : Nat)
    (f : σ → Nat → Nat → σ × Bool) :
    ∀ (fuel i o : Nat) (s : σ) (k : Nat) (p q : (Nat × Nat) × Bool),
      (allocInvocations chans nin nout f fuel i o s)[k]? = some p →
      (allocInvocations chans nin nout f fuel i o s)[k + 1]? = some q →
      q.1.1 = (p.1.1 + nin) % chans := by
  intro fuel
  induction fuel with
  | zero => intro i o s k p q hp _; simp [allocInvocations_zero] at hp
  | succ fuel ih =>
    intro i o s k p q hp hq
    rw [allocInvocations_succ] at hp hq
    by_cases ho : o < chans
    · rw [if_pos ho] at hp hq
      rcases hf : f s i o with ⟨s', b⟩
      rw [hf] at hp hq
      cases b
      · cases k with
        | zero => simp at hq
        | succ k => simp at hp
      · cases k with
        | zero =>
          simp only [List.getElem?_cons_zero, Option.some.injEq] at hp
          simp only [List.getElem?_cons_succ] at hq
          have := allocInv_head chans nin nout f fuel ((i + nin) % chans)
            (o + nout) s' q hq
          rw [this, ← hp]
        | succ k =>
          simp only [List.getElem?_cons_succ] at hp hq
          exact ih ((i + nin) % chans) (o + nout) s' k p q hp hq
    · rw [if_neg ho] at hp
      simp at hp

/-- A false return from an invocation of the allocator callback stops
the iteration immediately: that invocation is the last one. -/
theorem allocInv_abort {σ : Type} (chans nin nout : Nat)
    (f : σ → Nat → Nat → σ × Bool) :
    ∀ (fuel i o : Nat) (s : σ) (k : Nat) (p : (Nat × Nat) × Bool),
      (allocInvocations chans nin nout f fuel i o s)[k]? = some p →
      p.2 = false →
      (allocInvocations chans nin nout f fuel i o s).length = k + 1 := by
  intro fuel
  induction fuel with
  | zero => intro i o s k p hp _; simp [allocInvocations_zero] at hp
  | succ fuel ih =>
    intro i o s k p hp hfalse
    rw [allocInvocations_succ] at hp ⊢
    by_cases ho : o < chans
    · rw [if_pos ho] at hp ⊢
      rcases hf : f s i o with ⟨s', b⟩
      rw [hf] at hp
      cases b
      · cases k with
        | zero => simp
        | succ k => simp at hp
      · cases k with
        | zero =>
          simp at hp
          subst hp
          simp at hfalse
        | succ k =>
          simp only [List.getElem?_cons_succ] at hp
          have := ih ((i + nin) % chans) (o + nout) s' k p hp hfalse
          simp [this]
    · rw [if_neg ho] at hp
      simp at hp

/-- C2: for every channel count and every pair of arities, the allocator
invokes its callback with output offsets 0, nout, 2 nout, ... while they
are strictly below chans; the input offset starts at 0 and advances by
nin reduced modulo chans after each invocation; and a false return from
the callback ends the iteration at that invocation.  Stated for an
arbitrary stateful callback and every fuel bound of the embedding. -/
theorem C2_allocator_pattern {σ : Type} (chans numAudioIn numAudioOut fuel : Nat)
    (f : σ → Nat → Nat → σ × Bool) (s : σ) :
    (∀ k p, (allocInvocations chans numAudioIn numAudioOut f fuel 0 0 s)[k]? = some p →
      p.1.2 = k * numAudioOut ∧ k * numAudioOut < chans) ∧
    (∀ p, (allocInvocations chans numAudioIn numAudioOut f fuel 0 0 s)[0]? = some p →
      p.1.1 = 0) ∧
    (∀ k p q, (allocInvocations chans numAudioIn numAudioOut f fuel 0 0 s)[k]? = some p →
      (allocInvocations chans numAudioIn numAudioOut f fuel 0 0 s)[k + 1]? = some q →
      q.1.1 = (p.1.1 + numAudioIn) % chans) ∧
    (∀ k p, (allocInvocations chans numAudioIn numAudioOut f fuel 0 0 s)[k]? = some p →
      p.2 = false →
      (allocInvocations chans numAudioIn numAudioOut f fuel 0 0 s).length = k + 1) := by
  refine ⟨fun k p hp => ?_, fun p hp => ?_, fun k p q hp hq => ?_, fun k p hp hf => ?_⟩
  · have := allocInv_out chans numAudioIn numAudioOut f fuel 0 0 s k p hp
    simpa using this
  · exact allocInv_head chans numAudioIn numAudioOut f fuel 0 0 s p hp
  · exact allocInv_in_step chans numAudioIn numAudioOut f fuel 0 0 s k p q hp hq
  · exact allocInv_abort chans numAudioIn numAudioOut f fuel 0 0 s k p hp hf

/-- Witness for C2: an aborting callback at chans 3, arities 2 and 1;
the second invocation returns false and ends the iteration. -/
theorem C2_witness :
    (allocInvocations 3 2 1 (fun (_ : Unit) _ o => ((), decide (o = 0))) 3 0 0 ()).length
      = 1 + 1 :=
  (C2_allocator_pattern 3 2 1 3 (fun (_ : Unit) _ o => ((), decide (o = 0))) ()).2.2.2
    1 ((2, 1), false) rfl rfl

/-! Fuel and counting lemmas for the allocator. -/

theorem alloc_fuel_stable {σ : Type} (chans nin nout : Nat)
    (f : σ → Nat → Nat → σ × Bool) :
    ∀ (fuel extra i o : Nat) (s : σ), chans ≤ o + fuel * nout →
      allocInvocations chans nin nout f (fuel + extra) i o s =
      allocInvocations chans nin nout f fuel i o s := by
  intro fuel
  induction fuel with
  | zero =>
    intro extra i o s h
    have ho : ¬ o < chans := by omega
    rw [allocInvocations_stop chans nin nout f _ i o s ho,
      allocInvocations_zero]
  | succ fuel ih =>
    intro extra i o s h
    have hstep : fuel + 1 + extra = (fuel + extra) + 1 := by omega
    rw [hstep, allocInvocations_succ, allocInvocations_succ]
    by_cases ho : o < chans
    · rw [if_pos ho, if_pos ho]
      rcases hf : f s i o with ⟨s', b⟩
      cases b
      · rfl
      · have := ih extra ((i + nin) % chans) (o + nout) s'
          (by rw [Nat.succ_mul] at h; omega)
        simp [this]
    · rw [if_neg ho, if_neg ho]

theorem alloc_count_true {σ : Type} (chans nin nout : Nat)
    (f : σ → Nat → Nat → σ × Bool) (hall : ∀ s i o, (f s i o).2 = true)
    (hnz : 1 ≤ nout) :
    ∀ (fuel i o : Nat) (s : σ), chans ≤ o + fuel * nout →
      (allocInvocations chans nin nout f fuel i o s).length
        = (chans - o + nout - 1) / nout := by
  intro fuel
  induction fuel with
  | zero =>
    intro i o s h
    rw [allocInvocations_zero]
    have : chans - o = 0 := by omega
    rw [this]
    exact (Nat.div_eq_of_lt (by omega)).symm
  | succ fuel ih =>
    intro i o s h
    by_cases ho : o < chans
    · rw [allocInvocations_succ, if_pos ho]
      rcases hf : f s i o with ⟨s', b⟩
      have hb : b = true := by have := hall s i o; rw [hf] at this; exact this
      subst hb
      have hrec := ih ((i + nin) % chans) (o + nout) s'
        (by rw [Nat.succ_mul] at h; omega)
      simp only [List.length_cons, hrec]
      have h1 : chans - o + nout - 1 = (chans - o - 1) + nout := by omega
      rw [h1, Nat.add_div_right _ (by omega)]
      rcases le_or_lt (chans - o) nout with hcase | hcase
      · have e1 : chans - (o + nout) = 0 := by omega
        rw [e1]
        rw [Nat.div_eq_of_lt (by omega), Nat.div_eq_of_lt (by omega)]
      · have e2 : chans - (o + nout) + nout - 1 = chans - o - 1 := by omega
        rw [e2]
    · rw [allocInvocations_stop chans nin nout f _ i o s ho]
      have : chans - o = 0 := by omega
      rw [this]
      exact (Nat.div_eq_of_lt (by omega)).symm

theorem alloc_count_zero_arity {σ : Type} (chans nin : Nat)
    (f : σ → Nat → Nat → σ × Bool) (hall : ∀ s i o, (f s i o).2 = true)
    (hc : 0 < chans) :
    ∀ (fuel i : Nat) (s : σ),
      (allocInvocations chans nin 0 f fuel i 0 s).length = fuel := by
  intro fuel
  induction fuel with
  | zero => intro i s; rfl
  | succ fuel ih =>
    intro i s
    rw [allocInvocations_succ, if_pos hc]
    rcases hf : f s i 0 with ⟨s', b⟩
    have hb : b = true := by have := hall s i 0; rw [hf] at this; exact this
    subst hb
    simp [ih ((i + nin) % chans) s']

/-- Two allocator runs with callbacks that always return true produce
the same invocation trace, whatever their state types and state
evolution. -/
theorem alloc_trace_same {σ σ' : Type} (chans nin nout : Nat)
    (f : σ → Nat → Nat → σ × Bool) (f' : σ' → Nat → Nat → σ' × Bool)
    (hf : ∀ s i o, (f s i o).2 = true) (hf' : ∀ s i o, (f' s i o).2 = true) :
    ∀ (fuel i o : Nat) (s : σ) (s' : σ'),
      allocInvocations chans nin nout f fuel i o s =
      allocInvocations chans nin nout f' fuel i o s' := by
  intro fuel
  induction fuel with
  | zero => intro i o s s'; rfl
  | succ fuel ih =>
    intro i o s s'
    rw [allocInvocations_succ, allocInvocations_succ]
    by_cases ho : o < chans
    · rw [if_pos ho, if_pos ho]
      rcases h1 : f s i o with ⟨t, b⟩
      rcases h2 : f' s' i o with ⟨t', b'⟩
      have hb : b = true := by have := hf s i o; rw [h1] at this; exact this
      have hb' : b' = true := by have := hf' s' i o; rw [h2] at this; exact this
      subst hb; subst hb'
      simp [ih ((i + nin) % chans) (o + nout) t t']
    · rw [if_neg ho, if_neg ho]

/-- C10: with output arity at least 1 the allocator loop terminates for
every channel count — any fuel of at least chans gives the run with fuel
chans — and with a callback that never aborts it makes exactly
ceil(chans / nout) invocations; with output arity 0 and a positive
channel count the output offset never advances and no fuel bound is
enough: the trace length equals the fuel, so the C loop does not
terminate. -/
theorem C10_allocator_termination :
    (∀ (chans nin nout fuel : Nat) (g : Nat → Nat → Bool), 1 ≤ nout →
      chans ≤ fuel →
      allocTrace chans nin nout g fuel = allocTrace chans nin nout g chans) ∧
    (∀ chans nin nout : Nat, 1 ≤ nout →
      (allocTrace chans nin nout (fun _ _ => true) chans).length
        = (chans + nout - 1) / nout) ∧
    (∀ chans nin fuel : Nat, 0 < chans →
      (allocTrace chans nin 0 (fun _ _ => true) fuel).length = fuel) := by
  refine ⟨fun chans nin nout fuel g hnz hle => ?_, fun chans nin nout hnz => ?_,
    fun chans nin fuel hc => ?_⟩
  · have hchans : chans ≤ 0 + chans * nout := by
      have := Nat.mul_le_mul_left chans hnz
      omega
    have hsplit : fuel = chans + (fuel - chans) := by omega
    unfold allocTrace
    rw [hsplit, alloc_fuel_stable chans nin nout _ chans (fuel - chans) 0 0 () hchans]
  · have hchans : chans ≤ 0 + chans * nout := by
      have := Nat.mul_le_mul_left chans hnz
      omega
    have := alloc_count_true chans nin nout
      (fun (_ : Unit) i o => ((), true)) (fun _ _ _ => rfl) hnz chans 0 0 () hchans
    simpa [allocTrace] using this
  · exact alloc_count_zero_arity chans nin
      (fun (_ : Unit) i o => ((), true)) (fun _ _ _ => rfl) hc fuel 0 ()

/-- Witness for C10: fuel stability at chans 3 with fuel 5, the
invocation count ceil(3/2) = 2 for arity 2, and divergence at arity 0. -/
theorem C10_witness :
    allocTrace 3 1 2 (fun _ _ => true) 5 = allocTrace 3 1 2 (fun _ _ => true) 3 ∧
    (allocTrace 3 1 2 (fun _ _ => true) 3).length = (3 + 2 - 1) / 2 ∧
    (allocTrace 4 1 0 (fun _ _ => true) 9).length = 9 :=
  ⟨C10_allocator_termination.1 3 1 2 5 (fun _ _ => true) (by decide) (by decide),
   C10_allocator_termination.2.1 3 1 2 (by decide),
   C10_allocator_termination.2.2 4 1 9 (by decide)⟩

/-- C3: AddTrack and Process drive the allocator over the same channel
count and the same declared arities; when every RealtimeAddProcessor
call succeeds the two call sites make identical invocation sequences,
and at channelCount 3, input arity 2, output arity 1 each produces
exactly the offset pairs (0,0), (2,1), (1,2). -/
theorem C3_traversals_agree (addOk : Nat → Bool) (hall : ∀ k, addOk k = true)
    (chans numAudioIn numAudioOut fuel first firstP : Nat) :
    (addTrackTraversal addOk chans numAudioIn numAudioOut fuel first).2 =
      (processTraversal chans numAudioIn numAudioOut fuel firstP).2 ∧
    ((addTrackTraversal (fun _ => true) 3 2 1 3 0).2).map Prod.fst
      = [(0, 0), (2, 1), (1, 2)] ∧
    ((processTraversal 3 2 1 3 0).2).map Prod.fst
      = [(0, 0), (2, 1), (1, 2)] := by
  refine ⟨?_, by decide, by decide⟩
  exact alloc_trace_same chans numAudioIn numAudioOut _ _
    (fun cp i o => by simp [hall cp]) (fun cp i o => rfl) fuel 0 0 first firstP

/-- Witness for C3: the two traversals agree outright when every add
succeeds, at channel count 3 and arities 2 and 1. -/
theorem C3_witness :
    (addTrackTraversal (fun _ => true) 3 2 1 3 0).2 =
      (processTraversal 3 2 1 3 5).2 :=
  (C3_traversals_agree (fun _ => true) (fun _ => rfl) 3 2 1 3 0 5).1

/-! AddTrack lemmas and C8. -/

/-- The processor counter never decreases across an AddTrack traversal. -/
theorem addTrack_cp_mono (addOk : Nat → Bool) (chans nin nout : Nat) :
    ∀ (fuel i o first : Nat),
      first ≤ (AllocateChannelsToProcessors chans nin nout
        (fun cp _ _ => if addOk cp then (cp + 1, true) else (cp, false))
        fuel i o first).1 := by
  intro fuel
  induction fuel with
  | zero => intro i o first; exact Nat.le_refl first
  | succ fuel ih =>
    intro i o first
    show first ≤ (if o < chans then _ else _ : Nat × List ((Nat × Nat) × Bool)).1
    by_cases ho : o < chans
    · rw [if_pos ho]
      by_cases ha : addOk first
      · simp only [ha, if_pos]
        have := ih ((i + nin) % chans) (o + nout) (first + 1)
        omega
      · simp [ha]
    · rw [if_neg ho]

/-- Counterexample to C8: with two channels, arities 1 and 1, the first
RealtimeAddProcessor call succeeding and the second declining, AddTrack
succeeds anyway, advances mCurrentProcessor past its entry value 0 and
records a group entry for the track — the declined add does not make the
call fail, contrary to the claim. -/
theorem C8_counterexample :
    ((addTrackTraversal (fun k => k == 0) 2 1 1 2 0).2).map Prod.snd
      = [true, false] ∧
    (AddTrack (fun k => k == 0) 2 1 1 2 (⟨0, fun _ => none⟩ : ATState Nat Nat)
      7 44100).1 = true ∧
    (AddTrack (fun k => k == 0) 2 1 1 2 (⟨0, fun _ => none⟩ : ATState Nat Nat)
      7 44100).2.currentProcessor = 1 ∧
    (AddTrack (fun k => k == 0) 2 1 1 2 (⟨0, fun _ => none⟩ : ATState Nat Nat)
      7 44100).2.groups 7 = some (0, 44100) := by
  refine ⟨rfl, rfl, rfl, ?_⟩
  simp [AddTrack, addTrackTraversal, AllocateChannelsToProcessors]

/-- C8, amended: an AddTrack call fails exactly when no
RealtimeAddProcessor call succeeded, and then mCurrentProcessor keeps
its entry value and the group map is untouched; when at least one add
succeeded — even if a later one declined — a group entry
{entry value, sampleRate} is recorded for the track, the counter moves
to the final traversal value, and success is returned. -/
theorem C8_amended_route_failure {T R : Type} [DecidableEq T] (addOk : Nat → Bool)
    (chans numAudioIn numAudioOut fuel : Nat) (st : ATState T R)
    (track : T) (sampleRate : R) :
    ((AddTrack addOk chans numAudioIn numAudioOut fuel st track sampleRate).1 = true ↔
      st.currentProcessor <
        (addTrackTraversal addOk chans numAudioIn numAudioOut fuel
          st.currentProcessor).1) ∧
    ((AddTrack addOk chans numAudioIn numAudioOut fuel st track sampleRate).1 = false →
      (AddTrack addOk chans numAudioIn numAudioOut fuel st track sampleRate).2.currentProcessor
          = st.currentProcessor ∧
      (AddTrack addOk chans numAudioIn numAudioOut fuel st track sampleRate).2.groups
          = st.groups) ∧
    ((AddTrack addOk chans numAudioIn numAudioOut fuel st track sampleRate).1 = true →
      (AddTrack addOk chans numAudioIn numAudioOut fuel st track sampleRate).2.currentProcessor
          = (addTrackTraversal addOk chans numAudioIn numAudioOut fuel
              st.currentProcessor).1 ∧
      (AddTrack addOk chans numAudioIn numAudioOut fuel st track sampleRate).2.groups track
          = some (st.currentProcessor, sampleRate)) := by
  have hmono : st.currentProcessor ≤
      (addTrackTraversal addOk chans numAudioIn numAudioOut fuel st.currentProcessor).1 :=
    addTrack_cp_mono addOk chans numAudioIn numAudioOut fuel 0 0 st.currentProcessor
  by_cases h : st.currentProcessor <
      (addTrackTraversal addOk chans numAudioIn numAudioOut fuel st.currentProcessor).1
  · refine ⟨by simp [AddTrack, addTrackTraversal] at h ⊢; simp [h], ?_, ?_⟩
    · intro hfail
      simp only [AddTrack] at hfail
      rw [if_pos (by exact h)] at hfail
      simp at hfail
    · intro _
      simp only [AddTrack]
      rw [if_pos (by exact h)]
      simp
  · have heq : (addTrackTraversal addOk chans numAudioIn numAudioOut fuel
        st.currentProcessor).1 = st.currentProcessor := by omega
    refine ⟨by simp [AddTrack]; rw [if_neg (by exact h)]; simp [h], ?_, ?_⟩
    · intro _
      simp only [AddTrack]
      rw [if_neg (by exact h)]
      exact ⟨heq, rfl⟩
    · intro hsucc
      simp only [AddTrack] at hsucc
      rw [if_neg (by exact h)] at hsucc
      simp at hsucc

/-- Witness for the amended C8: a first add that declines leaves the
counter and the group map untouched and fails the call. -/
theorem C8_amended_witness :
    (AddTrack (fun _ => false) 1 1 1 1 (⟨5, fun _ => none⟩ : ATState Nat Nat)
      0 48000).2.currentProcessor = 5 ∧
    (AddTrack (fun _ => false) 1 1 1 1 (⟨5, fun _ => none⟩ : ATState Nat Nat)
      0 48000).2.groups = (fun _ => none) :=
  (C8_amended_route_failure (fun _ => false) 1 1 1 1 ⟨5, fun _ => none⟩ 0 48000).2.1 rfl

/-! Latency accounting lemmas and C1. -/

theorem chunkLoop_base (b L : Nat) (produce : Nat → Nat) (n len : Nat)
    (lat : Option Nat) (h : n = 0 ∨ b = 0) :
    chunkLoop b L produce n len lat = (len, lat) := by
  rw [chunkLoop, if_pos h]

theorem chunkLoop_step (b L : Nat) (produce : Nat → Nat) (n len : Nat)
    (lat : Option Nat) (h : ¬ (n = 0 ∨ b = 0)) :
    chunkLoop b L produce n len lat =
      chunkLoop b L produce (n - min n b)
        (len + produce (min n b) -
          limitSampleBufferSize (len + produce (min n b)) (lat.getD L))
        (some (lat.getD L -
          limitSampleBufferSize (len + produce (min n b)) (lat.getD L))) := by
  conv_lhs => rw [chunkLoop]
  rw [if_neg h]

/-- Closed form of the chunk loop when the latency budget has been
captured and the plugin produces exactly the requested frames: the final
len is the input length beyond the budget, and the budget drains by the
frames processed. -/
theorem chunkLoop_some (b L : Nat) (produce : Nat → Nat) (hb : 0 < b)
    (hp : ∀ c, produce c = c) :
    ∀ (n len A : Nat), min len A = 0 →
      chunkLoop b L produce n len (some A) =
        (len + n - A, some (A - (len + n))) := by
  intro n
  induction n using Nat.strong_induction_on with
  | _ n ih =>
    intro len A hmin
    by_cases hn : n = 0
    · subst hn
      rw [chunkLoop_base b L produce 0 len (some A) (Or.inl rfl)]
      simp only [Prod.mk.injEq, Option.some.injEq]
      omega
    · rw [chunkLoop_step b L produce n len (some A) (by omega)]
      rw [hp (min n b)]
      simp only [Option.getD_some, limitSampleBufferSize]
      rw [ih (n - min n b) (by omega) _ _ (by omega)]
      simp only [Prod.mk.injEq, Option.some.injEq]
      constructor <;> omega

/-- Closed form of the chunk loop when no latency has been captured yet:
an empty call captures nothing; otherwise the budget is captured from
the plugin after the first chunk and behaves as if present from the
start. -/
theorem chunkLoop_none (b L : Nat) (produce : Nat → Nat) (hb : 0 < b)
    (hp : ∀ c, produce c = c) (n : Nat) :
    chunkLoop b L produce n 0 none =
      if n = 0 then (0, none) else (n - L, some (L - n)) := by
  by_cases hn : n = 0
  · subst hn
    rw [if_pos rfl, chunkLoop_base b L produce 0 0 none (Or.inl rfl)]
  · rw [if_neg hn, chunkLoop_step b L produce n 0 none (by omega)]
    rw [hp (min n b)]
    simp only [Option.getD_none, limitSampleBufferSize, Nat.zero_add]
    rw [chunkLoop_some b L produce hb hp (n - min n b) _ _ (by omega)]
    simp only [Prod.mk.injEq, Option.some.injEq]
    constructor <;> omega

/-- One active Process call in closed form: the discardable count is the
part of the call covered by the outstanding budget, and the budget
evolves by latAfter. -/
theorem Process_active_account {α : Type} (chans b L : Nat)
    (produce : Nat → Nat) (hb : 0 < b) (hc : 0 < chans)
    (hp : ∀ c, produce c = c) (lat : Option Nat) (n : Nat)
    (inbuf outbuf activeOut : Nat → Nat → α) :
    Process ⟨true, true, true, lat⟩ chans inbuf outbuf n b L produce activeOut
      = (activeOut, min n (lat.getD L), ⟨true, true, true, latAfter L lat n⟩) := by
  simp only [Process]
  rw [if_neg (by simp)]
  rw [if_neg (by omega : ¬ chans = 0)]
  cases lat with
  | none =>
    rw [chunkLoop_none b L produce hb hp n]
    cases n with
    | zero => simp [latAfter]
    | succ m =>
      simp only [if_neg (Nat.succ_ne_zero m), latAfter, Option.getD_none]
      simp only [Prod.mk.injEq, ProcessState.mk.injEq, Option.some.injEq]
      simp only [eq_self_iff_true, true_and, and_true]
      omega
  | some A =>
    rw [chunkLoop_some b L produce hb hp n 0 A (by omega)]
    simp only [latAfter, Option.getD_some, Nat.zero_add]
    simp only [Prod.mk.injEq, ProcessState.mk.injEq, Option.some.injEq]
    simp only [eq_self_iff_true, true_and, and_true]
    omega

theorem latAfter_getD (L : Nat) (lat : Option Nat) (n : Nat) :
    (latAfter L lat n).getD L = lat.getD L - n := by
  cases lat <;> cases n <;> simp [latAfter]

/-- Accounting across a sequence of active Process calls: one
discardable count per call, their total is the part of the input covered
by the initial budget, and each is bounded by its own call length. -/
theorem processCalls_account (chans b L : Nat) (produce : Nat → Nat)
    (hb : 0 < b) (hc : 0 < chans) (hp : ∀ c, produce c = c) :
    ∀ (ns : List Nat) (lat : Option Nat),
      (processCalls chans b L produce ⟨true, true, true, lat⟩ ns).1.length
        = ns.length ∧
      (processCalls chans b L produce ⟨true, true, true, lat⟩ ns).1.sum
        = min ns.sum (lat.getD L) ∧
      ∀ p ∈ ns.zip (processCalls chans b L produce ⟨true, true, true, lat⟩ ns).1,
        p.2 ≤ p.1 := by
  intro ns
  induction ns with
  | nil => intro lat; simp [processCalls]
  | cons n ns ih =>
    intro lat
    obtain ⟨ihlen, ihsum, ihle⟩ := ih (latAfter L lat n)
    simp only [processCalls,
      Process_active_account chans b L produce hb hc hp lat n _ _ _]
    refine ⟨by simp [ihlen], ?_, ?_⟩
    · simp only [List.sum_cons, ihsum, latAfter_getD]
      omega
    · intro p hp
      simp only [List.zip_cons_cons, List.mem_cons] at hp
      rcases hp with hhead | htail
      · subst hhead
        simp only
        omega
      · exact ihle p htail

/-- Sum of pointwise differences over two lists of equal length with a
pointwise bound. -/
theorem zipWith_sub_sum :
    ∀ (ns ds : List Nat), ns.length = ds.length →
      (∀ p ∈ ns.zip ds, p.2 ≤ p.1) →
      (List.zipWith (fun n d => n - d) ns ds).sum = ns.sum - ds.sum ∧
      ds.sum ≤ ns.sum := by
  intro ns
  induction ns with
  | nil =>
    intro ds hlen _
    cases ds with
    | nil => simp
    | cons d ds => simp at hlen
  | cons n ns ih =>
    intro ds hlen hle
    cases ds with
    | nil => simp at hlen
    | cons d ds =>
      have hall := hle
      simp only [List.zip_cons_cons, List.mem_cons] at hall
      have hhead : d ≤ n := by
        have := hall (n, d) (Or.inl rfl)
        simpa using this
      obtain ⟨h1, h2⟩ := ih ds (by simpa using hlen)
        (fun p hp => hall p (Or.inr hp))
      simp only [List.zipWith_cons_cons, List.sum_cons, h1]
      omega

/-- C1: with a plugin reporting latency L (captured once, after the
first processed chunk), a positive channel count and block size, and a
plugin producing exactly the requested frames, a sequence of active
Process calls totaling N input frames with N over L yields valid frames
(each call length minus its returned discardable count) summing to
N - L, and no call reports more discardable frames than its own
length. -/
theorem C1_latency_accounting (b L chans : Nat) (produce : Nat → Nat)
    (ns : List Nat) (hb : 0 < b) (hc : 0 < chans)
    (hp : ∀ c, produce c = c) (hN : L < ns.sum) :
    (List.zipWith (fun n d => n - d) ns
      (processCalls chans b L produce ⟨true, true, true, none⟩ ns).1).sum
        = ns.sum - L ∧
    ∀ p ∈ ns.zip (processCalls chans b L produce ⟨true, true, true, none⟩ ns).1,
      p.2 ≤ p.1 := by
  obtain ⟨hlen, hsum, hle⟩ :=
    processCalls_account chans b L produce hb hc hp ns none
  refine ⟨?_, hle⟩
  obtain ⟨h1, _⟩ := zipWith_sub_sum ns _ hlen.symm hle
  rw [h1, hsum]
  simp only [Option.getD_none]
  omega

/-- Witness for C1: block size 1, latency 2, one channel, calls of 2 and
3 frames. -/
theorem C1_witness :
    (List.zipWith (fun n d => n - d) [2, 3]
      (processCalls 1 1 2 (fun c => c) ⟨true, true, true, none⟩ [2, 3]).1).sum
        = [2, 3].sum - 2 ∧
    ∀ p ∈ [2, 3].zip
        (processCalls 1 1 2 (fun c => c) ⟨true, true, true, none⟩ [2, 3]).1,
      p.2 ≤ p.1 :=
  C1_latency_accounting 1 2 1 (fun c => c) [2, 3] (by decide) (by decide)
    (fun c => rfl) (by decide)

end RealtimeEffectState
